import Mathlib

/-!
Verification of the duplex streaming session core of the customercare-bot
repository, shallowly embedded from the TypeScript sources:
  src/services/geminiLiveService.ts  (playback scheduler, tool-call broker,
                                      transcript dispatch)
  src/App.tsx                        (transcript aggregator)
  src/services/mockRagService.ts     (knowledge-base search)
Playback-clock times and audio-buffer durations are modelled as rationals,
audio samples as rationals, transport handles and buffer nodes as naturals.
-/

namespace CustomerCareBot

/-! ## Playback Scheduler

Embeds the audio-output part of `handleMessage` (geminiLiveService.ts,
lines 146-175): the mutable fields `nextStartTime` and `sources` of the
service class, together with the `stop()` calls issued on interruption.
`stopped` records the buffer nodes on which `stop()` has been called. -/

structure Scheduler where
  nextStartTime : ℚ
  liveBuffers : List ℕ
  stopped : List ℕ
deriving DecidableEq, Repr

/-- The service's field initializers: `nextStartTime = 0`, empty `sources`. -/
def Scheduler.init : Scheduler := ⟨0, [], []⟩

/-- One audio chunk arriving in `handleMessage`: the playback-clock reading
`this.outputAudioContext.currentTime` at that moment, the decoded buffer's
`duration`, and the buffer-source node. -/
structure EnqueueReq where
  clockNow : ℚ
  duration : ℚ
  buf : ℕ
deriving DecidableEq, Repr

/-- Lines 146-166: `nextStartTime = max(nextStartTime, currentTime)`;
`source.start(nextStartTime)`; `sources.add(source)`;
`nextStartTime += audioBuffer.duration`.  Returns the start time passed to
`source.start` together with the updated scheduler state. -/
def enqueue (clockNow duration : ℚ) (buf : ℕ) (s : Scheduler) : ℚ × Scheduler :=
  let t := max s.nextStartTime clockNow
  (t, { s with nextStartTime := t + duration, liveBuffers := s.liveBuffers ++ [buf] })

/-- The `ended` listener (lines 160-162): `sources.delete(source)`. -/
def bufferEnded (buf : ℕ) (s : Scheduler) : Scheduler :=
  { s with liveBuffers := s.liveBuffers.filter (fun b => b ≠ buf) }

/-- Lines 170-175: `sources.forEach(s => s.stop()); sources.clear();
nextStartTime = 0`. -/
def interrupt (s : Scheduler) : Scheduler :=
  { nextStartTime := 0, liveBuffers := [], stopped := s.stopped ++ s.liveBuffers }

/-- A run of consecutive enqueues with no intervening interrupt; returns the
(startTime, duration) pair of each buffer in enqueue order. -/
def enqueueRun (s : Scheduler) : List EnqueueReq → List (ℚ × ℚ)
  | [] => []
  | r :: rest =>
    let p := enqueue r.clockNow r.duration r.buf s
    (p.1, r.duration) :: enqueueRun p.2 rest

/-! ## Tool-Call Broker

Embeds the `message.toolCall` branch of `handleMessage` (lines 192-216):
a `for`-loop over `functionCalls` that, for each call named
`search_knowledge_base`, awaits the knowledge lookup and then registers the
`sendToolResponse` on the session promise.  Because each loop iteration
awaits its lookup before the next iteration starts, and the resolved
promise runs its callbacks in registration order, the loop is a left-to-right
fold, embedded as a structural recursion. -/

structure ToolArgs where
  query : String
deriving DecidableEq, Repr

structure FunctionCall where
  id : String
  name : String
  args : ToolArgs
deriving DecidableEq, Repr

structure ToolResponse where
  id : String
  name : String
  result : String
deriving DecidableEq, Repr

/-- The loop of lines 195-215.  `lookup` is `searchKnowledgeBase` over the
current runtime database.  Returns the queries passed to the lookup, in
execution order, and the `sendToolResponse` payloads, in send order. -/
def processToolCalls (lookup : String → String) :
    List FunctionCall → List String × List ToolResponse
  | [] => ([], [])
  | fc :: rest =>
    if fc.name = "search_knowledge_base" then
      let r := lookup fc.args.query
      let p := processToolCalls lookup rest
      (fc.args.query :: p.1, ⟨fc.id, fc.name, r⟩ :: p.2)
    else
      processToolCalls lookup rest

/-! Session liveness for the dead-session drop: the class field
`sessionPromise` is nulled by `disconnect()` (line 222) and repopulated by
`connect()`; the broker's send site (line 205) is
`this.sessionPromise?.then(session => session.sendToolResponse(...))`, so a
lookup completing after teardown reads the *current* field and the optional
chaining drops the send.  Transport handles are numbered; `sends` records
each `sendToolResponse` together with the handle it was issued on. -/

structure BrokerState where
  session : Option ℕ
  sends : List (ℕ × String)
deriving DecidableEq, Repr

inductive SessionEvent where
  | disconnect
  | connect (h : ℕ)
  | lookupComplete (invId : String)
deriving DecidableEq, Repr

def sessionStep (s : BrokerState) : SessionEvent → BrokerState
  | .disconnect => { s with session := none }
  | .connect h => { s with session := some h }
  | .lookupComplete inv =>
    match s.session with
    | none => s
    | some h => { s with sends := s.sends ++ [(h, inv)] }

def sessionRun (s : BrokerState) (evs : List SessionEvent) : BrokerState :=
  evs.foldl sessionStep s

/-! ## Transcript Aggregator

Embeds the `onTranscript` callback installed in `App.tsx` (lines 103-116):
the reducer applied to the `transcripts` state array.  The `isFinal`
argument is received but not used by the reducer, mirroring the source. -/

inductive Sender where
  | user
  | agent
deriving DecidableEq, Repr

structure TranscriptEntry where
  sender : Sender
  text : String
deriving DecidableEq, Repr

/-- App.tsx lines 104-115: if the last entry exists and has the same sender,
replace it by the same entry with the delta concatenated onto its text;
otherwise push a fresh `{sender, text}` entry. -/
def onTranscript (prev : List TranscriptEntry) (text : String) (_isFinal : Bool)
    (sender : Sender) : List TranscriptEntry :=
  match prev.getLast? with
  | some last =>
    if last.sender = sender then
      prev.dropLast ++ [{ sender := last.sender, text := last.text ++ text }]
    else
      prev ++ [{ sender := sender, text := text }]
  | none => prev ++ [{ sender := sender, text := text }]

/-- Concatenation of all entry texts of a transcript. -/
def transcriptText (l : List TranscriptEntry) : String :=
  l.foldl (fun acc e => acc ++ e.text) ""

/-! ## Transcript dispatch in the service

Embeds lines 177-189 of `handleMessage`: the `inputTranscription` and
`outputTranscription` branches, each guarded by `if (text)` (JS truthiness:
the callback fires only when the text is present and nonempty), always
passing `false` for `isFinal`. -/

structure ServerContent where
  inputTranscriptionText : Option String
  outputTranscriptionText : Option String
deriving DecidableEq, Repr

structure TranscriptCallback where
  text : String
  isFinal : Bool
  sender : Sender
deriving DecidableEq, Repr

def transcriptCallbacks (c : ServerContent) : List TranscriptCallback :=
  (match c.inputTranscriptionText with
   | some t => if t = "" then [] else [⟨t, false, Sender.user⟩]
   | none => []) ++
  (match c.outputTranscriptionText with
   | some t => if t = "" then [] else [⟨t, false, Sender.agent⟩]
   | none => [])

/-! ## PCM Frame Encoder -/

/-- Clamp to the signed 16-bit range. -/
def clamp16 (n : ℤ) : ℤ := max (-32768) (min 32767 n)

/-- Modelled from the spec: `float32ToPCM16Blob` lives in
`src/utils/audioUtils.ts`, which `geminiLiveService.ts` imports but which is
absent from the source snapshot.  Per the spec (section 4.1), each
floating-point sample in [-1.0, 1.0] is scaled by 32767, rounded, and clamped
to the signed 16-bit range; samples are modelled as rationals and the encoder
as the per-sample map producing the 16-bit integer sample array. -/
def float32ToPCM16 (samples : List ℚ) : List ℤ :=
  samples.map (fun x => clamp16 (round (x * 32767)))

/-! ## Knowledge-base search (mockRagService.ts) -/

structure DatabaseEntry where
  id : String
  category : String
  keywords : List String
  content : String
  addedAt : ℕ
deriving DecidableEq, Repr

/-- `needle` char list is an initial segment of `hay` char list. -/
def matchFront : List Char → List Char → Bool
  | [], _ => true
  | _ :: _, [] => false
  | a :: as, b :: bs => a == b && matchFront as bs

/-- `needle` occurs contiguously inside `hay` (JS `hay.includes(needle)`). -/
def containsSeq (needle : List Char) : List Char → Bool
  | [] => matchFront needle []
  | b :: bs => matchFront needle (b :: bs) || containsSeq needle bs

/-- JS `hay.includes(needle)`. -/
def strIncludes (hay needle : String) : Bool :=
  containsSeq needle.data hay.data

/-- JS `String.prototype.toLowerCase`, restricted to per-character lowering. -/
def lowerStr (s : String) : String :=
  String.mk (s.data.map Char.toLower)

/-- mockRagService.ts lines 191-193: an entry matches when any of its
keywords occurs inside the lowercased query. -/
def entryMatches (lowerQuery : String) (e : DatabaseEntry) : Bool :=
  e.keywords.any (fun keyword => strIncludes lowerQuery keyword)

def POLICY_INDEX : String :=
  "INDEX_POLICIES: Available policies: Return Policy, Privacy Policy, Shipping Policy, Warranty Policy. Please specify which one you need."

def NOT_FOUND : String :=
  "RAG_SEARCH_RESULT: No specific document found. Please ask the user for more details (e.g., specific error code, order number) or offer to escalate the ticket."

/-- mockRagService.ts lines 182-208, over an explicit database (the runtime
database is module-level mutable state; `Date.now()` timestamps are
irrelevant to search and modelled as 0).  The 600 ms simulated latency is a
pure delay and is not modelled. -/
def searchKnowledgeBase (db : List DatabaseEntry) (query : String) : String :=
  let lowerQuery := lowerStr query
  let found := db.filter (entryMatches lowerQuery)
  match found with
  | m :: _ => m.content
  | [] =>
    if strIncludes lowerQuery "policy" then POLICY_INDEX
    else NOT_FOUND

/-- mockRagService.ts lines 18-110 (`addedAt: Date.now()` modelled as 0). -/
def INITIAL_DATA : List DatabaseEntry := [
  { id := "pol-1", category := "Policy",
    keywords := ["return", "refund", "exchange", "back"],
    content := "POLICY_REFUND_V4: Items can be returned within 30 days of receipt. Items must be unworn with tags. Electronics have a 15% restocking fee unless defective. Processing time: 3-5 business days.",
    addedAt := 0 },
  { id := "pol-2", category := "Policy",
    keywords := ["shipping", "delivery", "arrive", "long", "wait"],
    content := "POLICY_SHIPPING: Standard shipping is 5-7 business days. Express is 2 days. We currently have delays in the North Atlantic region due to weather.",
    addedAt := 0 },
  { id := "pol-3", category := "Policy",
    keywords := ["privacy", "data", "gdpr", "personal info"],
    content := "POLICY_PRIVACY: We collect minimal data required for order fulfillment. We do not sell data to third parties. We are fully GDPR and CCPA compliant.",
    addedAt := 0 },
  { id := "pol-4", category := "Policy",
    keywords := ["warranty", "guarantee", "broken", "repair"],
    content := "POLICY_WARRANTY: All electronics come with a 1-year limited warranty covering manufacturer defects. Accidental damage (drops/spills) is not covered.",
    addedAt := 0 },
  { id := "ord-1", category := "Order",
    keywords := ["12345"],
    content := "CRM_ORDER_LOOKUP: Order #12345 for John Doe. Status: SHIPPED. Carrier: Fedex. Tracking: FX8842994. Est Delivery: Tomorrow.",
    addedAt := 0 },
  { id := "ord-2", category := "Order",
    keywords := ["99999"],
    content := "CRM_ORDER_LOOKUP: Order #99999 for Jane Smith. Status: PROCESSING. Warehouse: Atlanta. Est Delivery: 3-4 days.",
    addedAt := 0 },
  { id := "ord-3", category := "Order",
    keywords := ["order status", "where is my order", "track order", "my order", "check order"],
    content := "SCRIPT_ORDER_CHECK: I can check that for you. May I have your 5-digit Order Number? (Valid mock numbers for demo: 12345, 99999)",
    addedAt := 0 },
  { id := "info-1", category := "Info",
    keywords := ["about", "nexus", "who are you", "what is this company", "mission"],
    content := "INFO_COMPANY: Nexus Enterprise is a leading provider of cloud-native hardware solutions founded in 2020. Our mission is to democratize server-grade connectivity for small businesses.",
    addedAt := 0 },
  { id := "info-2", category := "Info",
    keywords := ["hq", "headquarters", "location", "address", "located", "office"],
    content := "INFO_LOCATION: Nexus Enterprise HQ is located at 123 Tech Plaza, San Francisco, CA 94105.",
    addedAt := 0 },
  { id := "info-3", category := "Info",
    keywords := ["hours", "open", "close", "time"],
    content := "INFO_HOURS: We are open Monday to Friday, 9 AM to 9 PM EST. Weekends 10 AM to 6 PM.",
    addedAt := 0 },
  { id := "tech-1", category := "Tech",
    keywords := ["503", "error", "unavailable"],
    content := "KB_TECH_503: Service Unavailable. Common cause: Load Balancer saturation. Fix: Check 'Status Page' for outages. If no outage, escalate to Level 2 Support.",
    addedAt := 0 },
  { id := "tech-2", category := "Tech",
    keywords := ["router", "light", "blinking", "wifi"],
    content := "KB_HARDWARE_ROUTER: If the 'Link' light is blinking orange, it means no downstream signal. Instruct customer to unplug power for 30 seconds (Power Cycle).",
    addedAt := 0 }
]

/-! ## Theorems: Playback Scheduler -/

/-- Every start time produced by a run of enqueues is at least the scheduler's
timeline cursor at the start of the run, provided durations are nonnegative. -/
lemma nextStartTime_le_enqueueRun (reqs : List EnqueueReq) :
    ∀ (s : Scheduler), (∀ r ∈ reqs, 0 ≤ r.duration) →
      ∀ p ∈ enqueueRun s reqs, s.nextStartTime ≤ p.1 := by
  induction reqs with
  | nil =>
    intro s _ p hp
    simp [enqueueRun] at hp
  | cons r rest ih =>
    intro s hdur p hp
    simp only [enqueueRun, List.mem_cons] at hp
    rcases hp with h | h
    · rw [h]
      exact le_max_left _ _
    · have hstep : (enqueue r.clockNow r.duration r.buf s).2.nextStartTime =
          max s.nextStartTime r.clockNow + r.duration := rfl
      have htail := ih (enqueue r.clockNow r.duration r.buf s).2
        (fun x hx => hdur x (List.mem_cons_of_mem _ hx)) p h
      rw [hstep] at htail
      calc s.nextStartTime ≤ max s.nextStartTime r.clockNow := le_max_left _ _
        _ ≤ max s.nextStartTime r.clockNow + r.duration :=
            le_add_of_nonneg_right (hdur r (List.mem_cons_self _ _))
        _ ≤ p.1 := htail

/-- The no-overlap invariant for a run of enqueues, as a pairwise relation on
the produced (startTime, duration) list. -/
lemma enqueueRun_pairwise (reqs : List EnqueueReq) :
    ∀ (s : Scheduler), (∀ r ∈ reqs, 0 ≤ r.duration) →
      List.Pairwise (fun a b => a.1 + a.2 ≤ b.1) (enqueueRun s reqs) := by
  induction reqs with
  | nil =>
    intro s _
    simp [enqueueRun]
  | cons r rest ih =>
    intro s hdur
    simp only [enqueueRun]
    refine List.Pairwise.cons ?_ (ih _ (fun x hx => hdur x (List.mem_cons_of_mem _ hx)))
    intro p hp
    have hstep : (enqueue r.clockNow r.duration r.buf s).2.nextStartTime =
        max s.nextStartTime r.clockNow + r.duration := rfl
    have := nextStartTime_le_enqueueRun rest (enqueue r.clockNow r.duration r.buf s).2
      (fun x hx => hdur x (List.mem_cons_of_mem _ hx)) p hp
    rw [hstep] at this
    exact this

/-- C1: with no intervening interrupt, each enqueue schedules its buffer at
`max(nextStartTime, clockNow())` and then advances `nextStartTime` by the
buffer's duration; consequently, over any enqueue run with nonnegative
durations, a buffer enqueued later never starts before an earlier buffer's
start time plus that earlier buffer's duration (no overlap). -/
theorem enqueue_no_overlap (s : Scheduler) (reqs : List EnqueueReq)
    (hdur : ∀ r ∈ reqs, 0 ≤ r.duration) :
    (∀ (c d : ℚ) (b : ℕ) (st : Scheduler),
        (enqueue c d b st).1 = max st.nextStartTime c ∧
        (enqueue c d b st).2.nextStartTime = max st.nextStartTime c + d ∧
        b ∈ (enqueue c d b st).2.liveBuffers) ∧
    List.Pairwise (fun p q => p.1 + p.2 ≤ q.1) (enqueueRun s reqs) := by
  refine ⟨fun c d b st => ⟨rfl, rfl, ?_⟩, enqueueRun_pairwise reqs s hdur⟩
  simp [enqueue]

/-- Closed instance of C1: a concrete three-chunk run. -/
theorem enqueue_no_overlap_witness :
    List.Pairwise (fun p q => p.1 + p.2 ≤ q.1)
      (enqueueRun Scheduler.init [⟨0, 2, 1⟩, ⟨1, 3, 2⟩, ⟨7, 1, 3⟩]) :=
  (enqueue_no_overlap Scheduler.init [⟨0, 2, 1⟩, ⟨1, 3, 2⟩, ⟨7, 1, 3⟩]
    (by decide)).2

/-- C2: `interrupt()` stops every live buffer, clears the live set, and resets
`nextStartTime` to 0, so the next enqueue starts exactly at the (nonnegative)
current clock time rather than at a stale future offset. -/
theorem interrupt_resets (s : Scheduler) :
    (interrupt s).liveBuffers = [] ∧
    (∀ b ∈ s.liveBuffers, b ∈ (interrupt s).stopped) ∧
    (interrupt s).nextStartTime = 0 ∧
    (∀ (c d : ℚ) (buf : ℕ), 0 ≤ c → (enqueue c d buf (interrupt s)).1 = c) := by
  refine ⟨rfl, ?_, rfl, ?_⟩
  · intro b hb
    simp [interrupt, hb]
  · intro c d buf hc
    simp [enqueue, interrupt, hc]

/-- Closed instance of C2: a scheduler with a stale future cursor and one live
buffer, interrupted and then enqueued at clock time 3. -/
theorem interrupt_resets_witness :
    (interrupt ⟨5, [7], []⟩).liveBuffers = [] ∧
    7 ∈ (interrupt ⟨5, [7], []⟩).stopped ∧
    (interrupt ⟨5, [7], []⟩).nextStartTime = 0 ∧
    (enqueue 3 2 9 (interrupt ⟨5, [7], []⟩)).1 = 3 := by
  obtain ⟨h1, h2, h3, h4⟩ := interrupt_resets ⟨5, [7], []⟩
  exact ⟨h1, h2 7 (by decide), h3, h4 3 2 9 (by decide)⟩

/-! ## Theorems: Tool-Call Broker -/

/-- The broker loop is the filter of recognized calls, in input order: the
queries looked up and the responses sent both arise from the same ordered
sublist of the inbound invocation list. -/
lemma processToolCalls_eq (lookup : String → String) (fcs : List FunctionCall) :
    processToolCalls lookup fcs =
      ((fcs.filter (fun fc => decide (fc.name = "search_knowledge_base"))).map
         (fun fc => fc.args.query),
       (fcs.filter (fun fc => decide (fc.name = "search_knowledge_base"))).map
         (fun fc => ⟨fc.id, fc.name, lookup fc.args.query⟩)) := by
  induction fcs with
  | nil => rfl
  | cons fc rest ih =>
    by_cases h : fc.name = "search_knowledge_base"
    · simp [processToolCalls, h, ih, List.filter_cons]
    · simp [processToolCalls, h, ih, List.filter_cons]

/-- C4: invocations of one inbound event are processed sequentially in
presentation order: the n-th lookup query and the n-th sent response both come
from the n-th recognized invocation, so responses are sent in exactly the
order the invocations arrived, one lookup per response, never interleaved. -/
theorem tool_calls_sequential_ordered (lookup : String → String)
    (fcs : List FunctionCall) :
    (processToolCalls lookup fcs).1 =
      (fcs.filter (fun fc => decide (fc.name = "search_knowledge_base"))).map
        (fun fc => fc.args.query) ∧
    (processToolCalls lookup fcs).2 =
      (fcs.filter (fun fc => decide (fc.name = "search_knowledge_base"))).map
        (fun fc => ⟨fc.id, fc.name, lookup fc.args.query⟩) := by
  rw [processToolCalls_eq]
  exact ⟨rfl, rfl⟩

/-- C5: an invocation whose tool name is not `search_knowledge_base`
contributes nothing: deleting it from the inbound list changes neither the
lookups performed nor the responses sent. -/
theorem unrecognized_tool_dropped (lookup : String → String)
    (pre post : List FunctionCall) (fc : FunctionCall)
    (h : fc.name ≠ "search_knowledge_base") :
    processToolCalls lookup (pre ++ fc :: post) =
      processToolCalls lookup (pre ++ post) := by
  simp [processToolCalls_eq, List.filter_append, List.filter_cons, h]

/-- Closed instance of C5: an unknown tool name between two recognized calls
is silently ignored. -/
theorem unrecognized_tool_dropped_witness :
    processToolCalls (fun _ => "R")
        ([⟨"t1", "search_knowledge_base", ⟨"q1"⟩⟩] ++
          ⟨"t9", "unknown_tool", ⟨"q9"⟩⟩ :: [⟨"t2", "search_knowledge_base", ⟨"q2"⟩⟩]) =
      processToolCalls (fun _ => "R")
        ([⟨"t1", "search_knowledge_base", ⟨"q1"⟩⟩] ++
          [⟨"t2", "search_knowledge_base", ⟨"q2"⟩⟩]) :=
  unrecognized_tool_dropped (fun _ => "R")
    [⟨"t1", "search_knowledge_base", ⟨"q1"⟩⟩]
    [⟨"t2", "search_knowledge_base", ⟨"q2"⟩⟩]
    ⟨"t9", "unknown_tool", ⟨"q9"⟩⟩ (by decide)

/-- Once the session slot is not the stale handle, it never becomes the stale
handle again (fresh reconnect handles), so no send is ever tagged with it. -/
lemma no_stale_send (evs : List SessionEvent) :
    ∀ (s : BrokerState) (g : ℕ) (inv : String),
      s.session ≠ some g → (∀ h, SessionEvent.connect h ∈ evs → h ≠ g) →
      (g, inv) ∉ s.sends → (g, inv) ∉ (sessionRun s evs).sends := by
  induction evs with
  | nil =>
    intro s g inv _ _ hnot
    exact hnot
  | cons e rest ih =>
    intro s g inv hsess hfresh hnot
    have hrun : sessionRun s (e :: rest) = sessionRun (sessionStep s e) rest := rfl
    rw [hrun]
    cases e with
    | disconnect =>
      exact ih _ g inv (by simp [sessionStep])
        (fun h hm => hfresh h (List.mem_cons_of_mem _ hm)) hnot
    | connect h =>
      have hg : h ≠ g := hfresh h (List.mem_cons_self _ _)
      exact ih _ g inv (by simp [sessionStep, hg])
        (fun x hx => hfresh x (List.mem_cons_of_mem _ hx)) hnot
    | lookupComplete inv2 =>
      cases hs : s.session with
      | none =>
        have hstep : sessionStep s (SessionEvent.lookupComplete inv2) = s := by
          simp [sessionStep, hs]
        rw [hstep]
        exact ih s g inv hsess
          (fun x hx => hfresh x (List.mem_cons_of_mem _ hx)) hnot
      | some h =>
        have hg : h ≠ g := fun he => hsess (by rw [hs, he])
        refine ih _ g inv (by simp [sessionStep, hs]; exact hg)
          (fun x hx => hfresh x (List.mem_cons_of_mem _ hx)) ?_
        simp only [sessionStep, hs, List.mem_append, List.mem_singleton]
        rintro (hmem | heq)
        · exact hnot hmem
        · exact hg (by injection heq with h1 _; exact h1.symm)

/-- C3: a lookup pending under transport handle `g` when `disconnect()` nulls
the session promise never sends on that stale handle: whatever events follow
the disconnect (including the lookup's eventual completion, and reconnections
with fresh handles), no `sendToolResponse` tagged with handle `g` is ever
issued — the optional-chained liveness check drops the result silently. -/
theorem dead_session_drop (s : BrokerState) (g : ℕ) (inv : String)
    (evs : List SessionEvent)
    (_hpending : s.session = some g)
    (hfresh : ∀ h, SessionEvent.connect h ∈ evs → h ≠ g)
    (hnot : (g, inv) ∉ s.sends) :
    (g, inv) ∉ (sessionRun s (SessionEvent.disconnect :: evs)).sends := by
  have hrun : sessionRun s (SessionEvent.disconnect :: evs) =
      sessionRun { s with session := none } evs := rfl
  rw [hrun]
  exact no_stale_send evs _ g inv (by simp) hfresh hnot

/-- Closed instance of C3: handle 0 live, disconnect, then the pending lookup
`t1` completes; no send tagged with handle 0 occurs. -/
theorem dead_session_drop_witness :
    ((0 : ℕ), "t1") ∉ (sessionRun ⟨some 0, []⟩
      [SessionEvent.disconnect, SessionEvent.lookupComplete "t1"]).sends :=
  dead_session_drop ⟨some 0, []⟩ 0 "t1" [SessionEvent.lookupComplete "t1"] rfl
    (fun h hm => by simp at hm) (by simp)

/-! ## Theorems: Transcript Aggregator -/

/-- C6: appending merges into the most recent entry when the sender matches
(plain concatenation, no separator) and opens a new entry otherwise; in
particular user-"a" then user-"b" gives one entry "ab", while user-"a" then
agent-"b" gives two entries. -/
theorem transcript_merge (prev : List TranscriptEntry) (s : Sender) (d : String)
    (f : Bool) :
    (∀ last, prev.getLast? = some last → last.sender = s →
        onTranscript prev d f s = prev.dropLast ++ [⟨s, last.text ++ d⟩]) ∧
    (∀ last, prev.getLast? = some last → ¬last.sender = s →
        onTranscript prev d f s = prev ++ [⟨s, d⟩]) ∧
    (prev.getLast? = none → onTranscript prev d f s = prev ++ [⟨s, d⟩]) ∧
    onTranscript (onTranscript [] "a" f Sender.user) "b" f Sender.user =
      [⟨Sender.user, "ab"⟩] ∧
    onTranscript (onTranscript [] "a" f Sender.user) "b" f Sender.agent =
      [⟨Sender.user, "a"⟩, ⟨Sender.agent, "b"⟩] := by
  refine ⟨?_, ?_, ?_, rfl, rfl⟩
  · intro last hl hs
    simp [onTranscript, hl, hs]
  · intro last hl hs
    simp [onTranscript, hl, hs]
  · intro hl
    simp [onTranscript, hl]

/-- Closed instance of C6: merging a same-sender delta into the last entry. -/
theorem transcript_merge_witness :
    onTranscript [⟨Sender.user, "a"⟩] "b" true Sender.user =
      [⟨Sender.user, "ab"⟩] := by
  have h := (transcript_merge [⟨Sender.user, "a"⟩] Sender.user "b" true).1
    ⟨Sender.user, "a"⟩ rfl rfl
  rw [h]
  rfl

/-- Counterexample to C7 as stated: appending an empty delta is *not* always
a no-op on the sequence of entries — when the last entry's sender differs, a
fresh empty-text entry is pushed. -/
theorem empty_delta_not_noop :
    onTranscript [⟨Sender.agent, "x"⟩] "" true Sender.user ≠
      [⟨Sender.agent, "x"⟩] := by
  decide

/-- C7 (amended): appending an empty delta never changes any existing entry's
text nor the concatenated transcript text, and it is a full no-op on the entry
sequence exactly when the most recent entry's sender equals the incoming
sender; when the transcript is empty or the last sender differs, a new entry
with empty text is appended. -/
theorem empty_delta_text_invariant (prev : List TranscriptEntry) (s : Sender)
    (f : Bool) :
    transcriptText (onTranscript prev "" f s) = transcriptText prev ∧
    (∀ last, prev.getLast? = some last → last.sender = s →
        onTranscript prev "" f s = prev) ∧
    ((prev.getLast? = none ∨ ∃ last, prev.getLast? = some last ∧ ¬last.sender = s) →
        onTranscript prev "" f s = prev ++ [⟨s, ""⟩]) := by
  have hsame : ∀ last, prev.getLast? = some last → last.sender = s →
      onTranscript prev "" f s = prev := by
    intro last hl hs
    obtain ⟨ys, rfl⟩ := List.getLast?_eq_some_iff.mp hl
    simp [onTranscript, hs]
    rw [← hs]
  have hnew : (prev.getLast? = none ∨
      ∃ last, prev.getLast? = some last ∧ ¬last.sender = s) →
      onTranscript prev "" f s = prev ++ [⟨s, ""⟩] := by
    rintro (hl | ⟨last, hl, hs⟩)
    · simp [onTranscript, hl]
    · simp [onTranscript, hl, hs]
  refine ⟨?_, hsame, hnew⟩
  cases hl : prev.getLast? with
  | none =>
    rw [hnew (Or.inl hl)]
    simp [transcriptText, List.foldl_append]
  | some last =>
    by_cases hs : last.sender = s
    · rw [hsame last hl hs]
    · rw [hnew (Or.inr ⟨last, hl, hs⟩)]
      simp [transcriptText, List.foldl_append]

/-- Closed instance of the amended C7: a same-sender empty delta is a full
no-op, and the concatenated text is unchanged. -/
theorem empty_delta_text_invariant_witness :
    transcriptText (onTranscript [⟨Sender.user, "a"⟩] "" true Sender.user) =
      transcriptText [⟨Sender.user, "a"⟩] ∧
    onTranscript [⟨Sender.user, "a"⟩] "" true Sender.user =
      [⟨Sender.user, "a"⟩] := by
  obtain ⟨h1, h2, _⟩ :=
    empty_delta_text_invariant [⟨Sender.user, "a"⟩] Sender.user true
  exact ⟨h1, h2 ⟨Sender.user, "a"⟩ rfl rfl⟩

/-! ## Theorems: PCM Frame Encoder -/

/-- C8: the encoder maps each sample to its scale-by-32767, rounded, clamped
16-bit value, preserving block length; a block of 4096 samples equal to 0.5
encodes to 4096 samples of value round(0.5 * 32767) = 16384. -/
theorem pcm_encoder (samples : List ℚ) :
    (float32ToPCM16 samples).length = samples.length ∧
    (∀ (i : ℕ) (hi : i < samples.length)
        (hi2 : i < (float32ToPCM16 samples).length),
        (float32ToPCM16 samples).get ⟨i, hi2⟩ =
          clamp16 (round (samples.get ⟨i, hi⟩ * 32767))) ∧
    float32ToPCM16 (List.replicate 4096 (1 / 2 : ℚ)) =
      List.replicate 4096 (16384 : ℤ) := by
  refine ⟨by simp [float32ToPCM16], ?_, ?_⟩
  · intro i hi hi2
    simp [float32ToPCM16]
  · have hval : clamp16 (round ((1 / 2 : ℚ) * 32767)) = 16384 := by
      norm_num [clamp16, round_eq]
    simp only [float32ToPCM16, List.map_replicate, hval]

/-- Closed instance of C8: one sample 0.5, index 0. -/
theorem pcm_encoder_witness :
    (float32ToPCM16 [(1 / 2 : ℚ)]).get ⟨0, by simp [float32ToPCM16]⟩ =
      clamp16 (round (([(1 / 2 : ℚ)].get ⟨0, by simp⟩) * 32767)) :=
  (pcm_encoder [(1 / 2 : ℚ)]).2.1 0 (by simp) (by simp [float32ToPCM16])

/-! ## Theorems: knowledge-base search -/

/-- `find?` is the head of `filter`: the first element in list order that
satisfies the predicate. -/
lemma find?_eq_head?_filter {α : Type} (p : α → Bool) :
    ∀ l : List α, l.find? p = (l.filter p).head? := by
  intro l
  induction l with
  | nil => rfl
  | cons a rest ih =>
    by_cases h : p a
    · simp [List.find?, List.filter, h]
    · simp only [List.find?, List.filter, Bool.not_eq_true] at h ⊢
      rw [h]
      simp

/-- C9: the search returns the content of the *first* matching entry in
database order (an entry matches when one of its keywords occurs inside the
lowercased query); with no match it returns the policy index when the
lowercased query contains "policy", and otherwise the fixed not-found
sentinel — it always resolves to a string. -/
theorem searchKB_first_match (db : List DatabaseEntry) (q : String) :
    (∀ e, db.find? (entryMatches (lowerStr q)) = some e →
        searchKnowledgeBase db q = e.content) ∧
    (db.find? (entryMatches (lowerStr q)) = none →
        strIncludes (lowerStr q) "policy" = true →
        searchKnowledgeBase db q = POLICY_INDEX) ∧
    (db.find? (entryMatches (lowerStr q)) = none →
        strIncludes (lowerStr q) "policy" = false →
        searchKnowledgeBase db q = NOT_FOUND) := by
  have hbody : searchKnowledgeBase db q =
      match db.filter (entryMatches (lowerStr q)) with
      | m :: _ => m.content
      | [] =>
        if strIncludes (lowerStr q) "policy" then POLICY_INDEX else NOT_FOUND :=
    rfl
  have hff := find?_eq_head?_filter (entryMatches (lowerStr q)) db
  refine ⟨?_, ?_, ?_⟩
  · intro e he
    rw [hff] at he
    cases hfil : db.filter (entryMatches (lowerStr q)) with
    | nil => rw [hfil] at he; simp at he
    | cons m rest =>
      rw [hfil] at he
      simp only [List.head?] at he
      injection he with he
      rw [hbody, hfil, ← he]
  · intro hn hp
    rw [hff] at hn
    cases hfil : db.filter (entryMatches (lowerStr q)) with
    | nil => rw [hbody, hfil, if_pos hp]
    | cons m rest => rw [hfil] at hn; simp at hn
  · intro hn hp
    rw [hff] at hn
    cases hfil : db.filter (entryMatches (lowerStr q)) with
    | nil =>
      rw [hbody, hfil]
      simp [hp]
    | cons m rest => rw [hfil] at hn; simp at hn

set_option maxRecDepth 8000

/-- Closed instance of C9: the query "return policy" hits the first entry
(pol-1, keyword "return") even though the query also contains "policy". -/
theorem searchKB_first_match_witness :
    searchKnowledgeBase INITIAL_DATA "return policy" =
      (INITIAL_DATA.get ⟨0, by decide⟩).content :=
  (searchKB_first_match INITIAL_DATA "return policy").1
    (INITIAL_DATA.get ⟨0, by decide⟩) (by decide)

/-! ## Theorems: transcript dispatch in the service -/

/-- C10: every `onTranscript` callback issued by `handleMessage` carries a
nonempty text delta and `isFinal = false`: the `if (text)` guards filter
empty deltas, and both call sites pass `false`. -/
theorem transcript_callbacks_nonempty_nonfinal (c : ServerContent)
    (cb : TranscriptCallback) (h : cb ∈ transcriptCallbacks c) :
    cb.text ≠ "" ∧ cb.isFinal = false := by
  obtain ⟨i, o⟩ := c
  simp only [transcriptCallbacks, List.mem_append] at h
  rcases h with h | h
  · rcases i with _ | t
    · simp at h
    · by_cases ht : t = ""
      · simp [ht] at h
      · simp [ht] at h
        subst h
        exact ⟨ht, rfl⟩
  · rcases o with _ | t
    · simp at h
    · by_cases ht : t = ""
      · simp [ht] at h
      · simp [ht] at h
        subst h
        exact ⟨ht, rfl⟩

/-- Closed instance of C10: a message with input transcription "hi". -/
theorem transcript_callbacks_witness :
    (TranscriptCallback.mk "hi" false Sender.user).text ≠ "" ∧
    (TranscriptCallback.mk "hi" false Sender.user).isFinal = false :=
  transcript_callbacks_nonempty_nonfinal ⟨some "hi", none⟩
    ⟨"hi", false, Sender.user⟩ (by decide)

end CustomerCareBot
